import Mathlib

/-
Verification of the ETL pipeline in `src/helperscripts/concat_jobs.py` and
`src/helperscripts/concat_jobs_freshdataset.py`: schema normalization of the
active/archived job relations, parsing of the embedded `CategorizedData` JSON
column, foreign-key resolution against the employer and job-source lookup
relations, assembly of the unified document, and the metadata-stripping
projection.  Python/pandas values are embedded shallowly: a cell is a `Val`,
a row is an ordered association list, a `DataFrame` is a column list plus a
row list, and `None`/`NaN` are both the explicit absence marker `Val.null`.
-/

namespace ConcatJobs

/-- A cell or JSON value.  `null` is the explicit absence marker, standing
both for Python `None` and for pandas `NaN`.  JSON numbers are modelled as
integers; fractional literals are outside the modelled domain. -/
inductive Val where
  | null
  | bool (b : Bool)
  | int (n : Int)
  | str (s : String)
  | arr (elems : List Val)
  | obj (fields : List (String × Val))
deriving Repr

mutual

/-- Structural equality test on values (Python `==` on the embedded data). -/
def Val.beq : Val → Val → Bool
  | .null, .null => true
  | .bool a, .bool b => a == b
  | .int a, .int b => a == b
  | .str a, .str b => a == b
  | .arr xs, .arr ys => Val.beqList xs ys
  | .obj fs, .obj gs => Val.beqFields fs gs
  | _, _ => false

/-- Pointwise equality test on value lists. -/
def Val.beqList : List Val → List Val → Bool
  | [], [] => true
  | x :: xs, y :: ys => Val.beq x y && Val.beqList xs ys
  | _, _ => false

/-- Pointwise equality test on key-value field lists. -/
def Val.beqFields : List (String × Val) → List (String × Val) → Bool
  | [], [] => true
  | (k, v) :: xs, (l, w) :: ys => k == l && Val.beq v w && Val.beqFields xs ys
  | _, _ => false

end

mutual

theorem Val.eq_of_beq : ∀ {a b : Val}, Val.beq a b = true → a = b
  | .null, .null, _ => rfl
  | .bool _, .bool _, h => by simp [Val.beq] at h; simp [h]
  | .int _, .int _, h => by simp [Val.beq] at h; simp [h]
  | .str _, .str _, h => by simp [Val.beq] at h; simp [h]
  | .arr _, .arr _, h => by
      simp only [Val.beq] at h
      exact congrArg Val.arr (Val.eqList_of_beq h)
  | .obj _, .obj _, h => by
      simp only [Val.beq] at h
      exact congrArg Val.obj (Val.eqFields_of_beq h)
  | .null, .bool _, h => by simp [Val.beq] at h
  | .null, .int _, h => by simp [Val.beq] at h
  | .null, .str _, h => by simp [Val.beq] at h
  | .null, .arr _, h => by simp [Val.beq] at h
  | .null, .obj _, h => by simp [Val.beq] at h
  | .bool _, .null, h => by simp [Val.beq] at h
  | .bool _, .int _, h => by simp [Val.beq] at h
  | .bool _, .str _, h => by simp [Val.beq] at h
  | .bool _, .arr _, h => by simp [Val.beq] at h
  | .bool _, .obj _, h => by simp [Val.beq] at h
  | .int _, .null, h => by simp [Val.beq] at h
  | .int _, .bool _, h => by simp [Val.beq] at h
  | .int _, .str _, h => by simp [Val.beq] at h
  | .int _, .arr _, h => by simp [Val.beq] at h
  | .int _, .obj _, h => by simp [Val.beq] at h
  | .str _, .null, h => by simp [Val.beq] at h
  | .str _, .bool _, h => by simp [Val.beq] at h
  | .str _, .int _, h => by simp [Val.beq] at h
  | .str _, .arr _, h => by simp [Val.beq] at h
  | .str _, .obj _, h => by simp [Val.beq] at h
  | .arr _, .null, h => by simp [Val.beq] at h
  | .arr _, .bool _, h => by simp [Val.beq] at h
  | .arr _, .int _, h => by simp [Val.beq] at h
  | .arr _, .str _, h => by simp [Val.beq] at h
  | .arr _, .obj _, h => by simp [Val.beq] at h
  | .obj _, .null, h => by simp [Val.beq] at h
  | .obj _, .bool _, h => by simp [Val.beq] at h
  | .obj _, .int _, h => by simp [Val.beq] at h
  | .obj _, .str _, h => by simp [Val.beq] at h
  | .obj _, .arr _, h => by simp [Val.beq] at h

theorem Val.eqList_of_beq : ∀ {xs ys : List Val}, Val.beqList xs ys = true → xs = ys
  | [], [], _ => rfl
  | x :: xs, y :: ys, h => by
      simp only [Val.beqList, Bool.and_eq_true] at h
      rw [Val.eq_of_beq h.1, Val.eqList_of_beq h.2]
  | [], _ :: _, h => by simp [Val.beqList] at h
  | _ :: _, [], h => by simp [Val.beqList] at h

theorem Val.eqFields_of_beq : ∀ {xs ys : List (String × Val)}, Val.beqFields xs ys = true → xs = ys
  | [], [], _ => rfl
  | (k, v) :: xs, (l, w) :: ys, h => by
      simp only [Val.beqFields, Bool.and_eq_true] at h
      obtain ⟨⟨h1, h2⟩, h3⟩ := h
      rw [show k = l from by simpa using h1, Val.eq_of_beq h2, Val.eqFields_of_beq h3]
  | [], _ :: _, h => by simp [Val.beqFields] at h
  | _ :: _, [], h => by simp [Val.beqFields] at h

end

mutual

theorem Val.beq_refl : ∀ (a : Val), Val.beq a a = true
  | .null => rfl
  | .bool _ => by simp [Val.beq]
  | .int _ => by simp [Val.beq]
  | .str _ => by simp [Val.beq]
  | .arr xs => by simp only [Val.beq]; exact Val.beqList_refl xs
  | .obj fs => by simp only [Val.beq]; exact Val.beqFields_refl fs

theorem Val.beqList_refl : ∀ (xs : List Val), Val.beqList xs xs = true
  | [] => rfl
  | x :: xs => by
      simp only [Val.beqList, Bool.and_eq_true]
      exact ⟨Val.beq_refl x, Val.beqList_refl xs⟩

theorem Val.beqFields_refl : ∀ (xs : List (String × Val)), Val.beqFields xs xs = true
  | [] => rfl
  | (k, v) :: xs => by
      simp only [Val.beqFields, Bool.and_eq_true]
      exact ⟨⟨by simp, Val.beq_refl v⟩, Val.beqFields_refl xs⟩

end

instance : BEq Val := ⟨Val.beq⟩

instance : LawfulBEq Val where
  eq_of_beq := Val.eq_of_beq
  rfl := Val.beq_refl _

instance : DecidableEq Val := fun a b =>
  decidable_of_iff (Val.beq a b = true) ⟨Val.eq_of_beq, fun h => h ▸ Val.beq_refl a⟩

/-- `pd.notna`: true for every value except the absence marker. -/
def notna (v : Val) : Bool := v ≠ Val.null

/-- Keyed lookup on an association list: the value under the first matching
key, when any. -/
def getKey? {κ α : Type} [BEq κ] (l : List (κ × α)) (k : κ) : Option α :=
  (l.find? (fun p => p.1 == k)).map (fun p => p.2)

/-- Keyed update on an association list: overwrites under an existing key,
keeping its position, and otherwise appends on the right.  This is Python
dict assignment, and equally a pandas column write seen at row level. -/
def setKey {κ α : Type} [BEq κ] (l : List (κ × α)) (k : κ) (v : α) : List (κ × α) :=
  if l.any (fun p => p.1 == k) then
    l.map (fun p => if p.1 == k then (k, v) else p)
  else l ++ [(k, v)]

/-- A row of a tabular relation: an ordered association list from column name
to cell value, in pandas column order. -/
abbrev Row : Type := List (String × Val)

/-- Cell read `row[col]` / `row.get(col)`: the stored value, or the absence
marker when the cell is missing (pandas fills `NaN` for cells of columns a
concatenated frame did not have). -/
def Row.get (r : Row) (k : String) : Val :=
  (getKey? r k).getD Val.null

/-- Column write `df[col] = v` seen at row level. -/
def Row.set (r : Row) (k : String) (v : Val) : Row :=
  setKey r k v

/-- An in-memory relation: the frame's column names and its rows. -/
structure DataFrame where
  cols : List String
  rows : List Row
deriving Repr

/-- `jobs_active["original_id"] = None`: gives a row the new column holding
the absence marker. -/
def addOriginalId (r : Row) : Row := r ++ [("original_id", Val.null)]

/-- `df["source_table"] = tag`: stamps the provenance tag on a row. -/
def tagSource (tag : String) (r : Row) : Row := Row.set r "source_table" (Val.str tag)

/-- Adds a column name to a frame's column list when not already present. -/
def addColName (cs : List String) (c : String) : List String :=
  if c ∈ cs then cs else cs ++ [c]

/-- Column union performed by `pd.concat`: the left frame's columns followed
by the right frame's columns not already present. -/
def colsUnion (a b : List String) : List String :=
  a ++ b.filter (fun c => ¬ (c ∈ a))

/-- `normalize_job_schemas` (concat_jobs.py, lines 46-72): adds an
`original_id` column holding the absence marker to the active frame when that
column is missing, stamps `source_table` with `"active"` on every active row
and `"archived"` on every archived row, and concatenates the two frames,
active rows first. -/
def normalize_job_schemas (jobs_active jobs_archived : DataFrame) : DataFrame :=
  let a1 : DataFrame :=
    if "original_id" ∈ jobs_active.cols then jobs_active
    else ⟨jobs_active.cols ++ ["original_id"], jobs_active.rows.map addOriginalId⟩
  let a2 : DataFrame := ⟨addColName a1.cols "source_table", a1.rows.map (tagSource "active")⟩
  let b2 : DataFrame :=
    ⟨addColName jobs_archived.cols "source_table", jobs_archived.rows.map (tagSource "archived")⟩
  ⟨colsUnion a2.cols b2.cols, a2.rows ++ b2.rows⟩

/-- Whitespace skipping of the JSON grammar. -/
def skipWs : List Char → List Char
  | c :: cs => if c = ' ' ∨ c = '\t' ∨ c = '\n' ∨ c = '\r' then skipWs cs else c :: cs
  | [] => []

/-- Value of one hexadecimal digit, for `\u` escapes. -/
def hexDigit (c : Char) : Option Nat :=
  if '0' ≤ c ∧ c ≤ '9' then some (c.toNat - '0'.toNat)
  else if 'a' ≤ c ∧ c ≤ 'f' then some (c.toNat - 'a'.toNat + 10)
  else if 'A' ≤ c ∧ c ≤ 'F' then some (c.toNat - 'A'.toNat + 10)
  else none

/-- Body of a JSON string literal, after the opening quote: accumulates
characters (unescaping the standard escapes) until the closing quote. -/
def parseStringBody : Nat → List Char → List Char → Option (String × List Char)
  | 0, _, _ => none
  | _ + 1, _, [] => none
  | fuel + 1, acc, c :: cs =>
    if c = '"' then some (String.mk acc.reverse, cs)
    else if c = '\\' then
      match cs with
      | [] => none
      | e :: cs2 =>
        if e = '"' then parseStringBody fuel ('"' :: acc) cs2
        else if e = '\\' then parseStringBody fuel ('\\' :: acc) cs2
        else if e = '/' then parseStringBody fuel ('/' :: acc) cs2
        else if e = 'b' then parseStringBody fuel ('\x08' :: acc) cs2
        else if e = 'f' then parseStringBody fuel ('\x0c' :: acc) cs2
        else if e = 'n' then parseStringBody fuel ('\n' :: acc) cs2
        else if e = 'r' then parseStringBody fuel ('\r' :: acc) cs2
        else if e = 't' then parseStringBody fuel ('\t' :: acc) cs2
        else if e = 'u' then
          match cs2 with
          | h1 :: h2 :: h3 :: h4 :: cs3 =>
            match hexDigit h1, hexDigit h2, hexDigit h3, hexDigit h4 with
            | some d1, some d2, some d3, some d4 =>
                parseStringBody fuel (Char.ofNat (((d1 * 16 + d2) * 16 + d3) * 16 + d4) :: acc) cs3
            | _, _, _, _ => none
          | _ => none
        else none
    else parseStringBody fuel (c :: acc) cs

/-- Longest prefix of decimal digits, with the remainder. -/
def takeDigits : List Char → List Char × List Char
  | [] => ([], [])
  | c :: cs =>
    if c.isDigit then
      let p := takeDigits cs
      (c :: p.1, p.2)
    else ([], c :: cs)

/-- Numeric value of a digit string. -/
def digitsVal (ds : List Char) : Nat :=
  ds.foldl (fun n c => n * 10 + (c.toNat - '0'.toNat)) 0

/-- A JSON number literal.  Integer literals only: a fractional or exponent
part makes the literal fall outside the modelled domain, and a leading zero
is rejected as the JSON grammar does. -/
def parseNumber (cs : List Char) : Option (Val × List Char) :=
  let p := match cs with
    | '-' :: rest => (true, rest)
    | _ => (false, cs)
  match takeDigits p.2 with
  | ([], _) => none
  | (ds, rest) =>
    if 2 ≤ ds.length ∧ ds.head? = some '0' then none
    else
      match rest with
      | c :: _ =>
        if c = '.' ∨ c = 'e' ∨ c = 'E' then none
        else some (Val.int (if p.1 then -(digitsVal ds : Int) else (digitsVal ds : Int)), rest)
      | [] => some (Val.int (if p.1 then -(digitsVal ds : Int) else (digitsVal ds : Int)), [])

mutual

/-- One JSON value, by recursive descent with explicit fuel. -/
def parseVal : Nat → List Char → Option (Val × List Char)
  | 0, _ => none
  | fuel + 1, cs =>
    match skipWs cs with
    | [] => none
    | c :: rest =>
      if c = 'n' then
        match rest with
        | 'u' :: 'l' :: 'l' :: rest2 => some (Val.null, rest2)
        | _ => none
      else if c = 't' then
        match rest with
        | 'r' :: 'u' :: 'e' :: rest2 => some (Val.bool true, rest2)
        | _ => none
      else if c = 'f' then
        match rest with
        | 'a' :: 'l' :: 's' :: 'e' :: rest2 => some (Val.bool false, rest2)
        | _ => none
      else if c = '"' then
        match parseStringBody (rest.length + 1) [] rest with
        | some (s, rest2) => some (Val.str s, rest2)
        | none => none
      else if c = '\x7b' then
        match skipWs rest with
        | '\x7d' :: rest2 => some (Val.obj [], rest2)
        | rest1 => parseMembers fuel rest1 []
      else if c = '[' then
        match skipWs rest with
        | ']' :: rest2 => some (Val.arr [], rest2)
        | rest1 => parseElems fuel rest1 []
      else if c = '-' ∨ c.isDigit then parseNumber (c :: rest)
      else none

/-- Members of a JSON object.  A repeated key overwrites the earlier entry,
as Python dict construction does. -/
def parseMembers : Nat → List Char → Row → Option (Val × List Char)
  | 0, _, _ => none
  | fuel + 1, cs, acc =>
    match skipWs cs with
    | '"' :: rest =>
      match parseStringBody (rest.length + 1) [] rest with
      | some (k, rest2) =>
        match skipWs rest2 with
        | ':' :: rest3 =>
          match parseVal fuel rest3 with
          | some (v, rest4) =>
            match skipWs rest4 with
            | ',' :: rest5 => parseMembers fuel rest5 (Row.set acc k v)
            | '\x7d' :: rest5 => some (Val.obj (Row.set acc k v), rest5)
            | _ => none
          | none => none
        | _ => none
      | none => none
    | _ => none

/-- Elements of a JSON array. -/
def parseElems : Nat → List Char → List Val → Option (Val × List Char)
  | 0, _, _ => none
  | fuel + 1, cs, acc =>
    match parseVal fuel cs with
    | some (v, rest) =>
      match skipWs rest with
      | ',' :: rest2 => parseElems fuel rest2 (acc ++ [v])
      | ']' :: rest2 => some (Val.arr (acc ++ [v]), rest2)
      | _ => none
    | none => none

end

/-- Model of Python `json.loads`: parses the whole string as one JSON value,
with `none` where `json.loads` raises `JSONDecodeError`.  A valid JSON
document may be any value — object, array, string, number, boolean or null —
so the result is by no means always a mapping. -/
def jsonLoads (s : String) : Option Val :=
  match parseVal (s.data.length + 1) s.data with
  | some (v, rest) => if skipWs rest = [] then some v else none
  | none => none

/-- `parse_json_column` (concat_jobs.py, lines 19-28): the absence marker or
the empty string give the absence marker; a dict passes through unchanged; a
string is handed to `json.loads`, whose parse failure is swallowed into the
absence marker; any other value makes `json.loads` raise `TypeError`, equally
swallowed into the absence marker. -/
def parse_json_column (value : Val) : Val :=
  if value = Val.null ∨ value = Val.str "" then Val.null
  else
    match value with
    | Val.obj fields => Val.obj fields
    | Val.str s => (jsonLoads s).getD Val.null
    | _ => Val.null

/-- `parse_categorized_data` (concat_jobs.py, lines 75-79): applies
`parse_json_column` to the `CategorizedData` column of every row. -/
def parse_categorized_data (jobs : DataFrame) : DataFrame :=
  ⟨addColName jobs.cols "CategorizedData",
   jobs.rows.map (fun r =>
     Row.set r "CategorizedData" (parse_json_column (Row.get r "CategorizedData")))⟩

/-- `x if pd.notna(x) else None`: non-absent values pass through, the absence
marker stays the absence marker. -/
def orNone (v : Val) : Val := if notna v then v else Val.null

/-- Python `bool(...)` on an embedded value. -/
def pyBool (v : Val) : Bool :=
  match v with
  | Val.null => false
  | Val.bool b => b
  | Val.int n => n ≠ 0
  | Val.str s => s ≠ ""
  | Val.arr xs => xs ≠ []
  | Val.obj fs => fs ≠ []

/-- Python `int(...)` on an embedded value.  Values `int` cannot convert
raise in Python and lie outside the modelled domain. -/
def pyInt (v : Val) : Int :=
  match v with
  | Val.int n => n
  | Val.bool b => if b then 1 else 0
  | _ => 0

/-- The employer lookup entry (concat_jobs.py, lines 102-112): the full
projected employer sub-record, counters included. -/
def employerProj (r : Row) : Row :=
  [("id", Row.get r "id"),
   ("name", orNone (Row.get r "name")),
   ("alt_name", orNone (Row.get r "alt_name")),
   ("logo_url", orNone (Row.get r "logo_url")),
   ("fh", Val.bool (if notna (Row.get r "fh") then pyBool (Row.get r "fh") else false)),
   ("jobscount", Val.int (if notna (Row.get r "jobscount") then pyInt (Row.get r "jobscount") else 0)),
   ("jobscount_online",
    Val.int (if notna (Row.get r "jobscount_online") then pyInt (Row.get r "jobscount_online") else 0))]

/-- The job-source lookup entry (concat_jobs.py, lines 116-122). -/
def jobsourceProj (r : Row) : Row :=
  [("jobsource_id", Row.get r "jobsource_id"),
   ("jobsource", orNone (Row.get r "jobsource")),
   ("description", orNone (Row.get r "description"))]

/-- Python dict assignment `d[k] = v` for the lookup indices. -/
def dictSet (d : List (Val × Row)) (k : Val) (v : Row) : List (Val × Row) :=
  setKey d k v

/-- Python `k in d` and `d[k]` combined: the value under a key, when any. -/
def dictFind (d : List (Val × Row)) (k : Val) : Option Row :=
  getKey? d k

/-- A lookup index over a relation, keyed by one column (concat_jobs.py,
lines 100-122): one dict assignment per row, in row order. -/
def buildLookup (rows : List Row) (keyCol : String) (proj : Row → Row) : List (Val × Row) :=
  rows.foldl (fun d r => dictSet d (Row.get r keyCol) (proj r)) []

/-- The unconditional base fields of one output job record (concat_jobs.py,
lines 127-147), in the order the source writes them. -/
def jobEntryBase (r : Row) : Row :=
  [("id", if notna (Row.get r "id") then Val.int (pyInt (Row.get r "id")) else Val.null),
   ("job_title", orNone (Row.get r "job_title")),
   ("url", orNone (Row.get r "url")),
   ("department", orNone (Row.get r "department")),
   ("level", orNone (Row.get r "level")),
   ("location", orNone (Row.get r "location")),
   ("schedule", orNone (Row.get r "schedule")),
   ("main", Val.bool (if notna (Row.get r "main") then pyBool (Row.get r "main") else false)),
   ("sync", Val.bool (if notna (Row.get r "sync") then pyBool (Row.get r "sync") else false)),
   ("ignore", Val.bool (if notna (Row.get r "ignore") then pyBool (Row.get r "ignore") else false)),
   ("removed", Val.bool (if notna (Row.get r "removed") then pyBool (Row.get r "removed") else false)),
   ("manual", Val.bool (if notna (Row.get r "manual") then pyBool (Row.get r "manual") else false)),
   ("Archived", Val.bool (if notna (Row.get r "Archived") then pyBool (Row.get r "Archived") else false)),
   ("ideal", Val.bool (if notna (Row.get r "ideal") then pyBool (Row.get r "ideal") else false)),
   ("created_at", orNone (Row.get r "created_at")),
   ("updated_at", orNone (Row.get r "updated_at")),
   ("source_table", Row.get r "source_table"),
   ("CategorizedData", Row.get r "CategorizedData"),
   ("clicks", Val.int (if notna (Row.get r "clicks") then pyInt (Row.get r "clicks") else 0))]

/-- The employer reference embedded into a resolved job record
(concat_jobs.py, lines 165-170): display fields only. -/
def employerRef (e : Row) : Val :=
  Val.obj [("id", Row.get e "id"),
           ("name", Row.get e "name"),
           ("alt_name", Row.get e "alt_name"),
           ("logo_url", Row.get e "logo_url")]

/-- The job-source reference embedded into a resolved job record
(concat_jobs.py, lines 179-182): identifier and label only. -/
def jobsourceRef (s : Row) : Val :=
  Val.obj [("jobsource_id", Row.get s "jobsource_id"),
           ("jobsource", Row.get s "jobsource")]

/-- The optional fields written after the base fields (concat_jobs.py, lines
149-159): the description when requested, the embedding when requested, and
`original_id` exactly when the row's value for it is non-absent. -/
def jobEntryOpt (include_embeddings include_descriptions : Bool) (r : Row) : Row :=
  let e1 := jobEntryBase r
  let e2 :=
    if include_descriptions then e1 ++ [("description", orNone (Row.get r "description"))] else e1
  let e3 :=
    if include_embeddings then e2 ++ [("job_embedding", orNone (Row.get r "job_embedding"))] else e2
  if notna (Row.get r "original_id") then
    e3 ++ [("original_id", Val.int (pyInt (Row.get r "original_id")))]
  else e3

/-- The employer resolution of one record (concat_jobs.py, lines 161-173):
when the raw key is non-absent and in the index, the embedded ref alone;
otherwise a null ref together with the retained raw key. -/
def employerPart (employer_lookup : List (Val × Row)) (r : Row) : Row :=
  match (if notna (Row.get r "employer_id") then
      dictFind employer_lookup (Row.get r "employer_id") else none) with
  | some emp => [("employer", employerRef emp)]
  | none => [("employer", Val.null), ("employer_id", orNone (Row.get r "employer_id"))]

/-- The job-source resolution of one record (concat_jobs.py, lines 175-185). -/
def jobsourcePart (jobsource_lookup : List (Val × Row)) (r : Row) : Row :=
  match (if notna (Row.get r "jobsource_id") then
      dictFind jobsource_lookup (Row.get r "jobsource_id") else none) with
  | some src => [("jobsource", jobsourceRef src)]
  | none => [("jobsource", Val.null), ("jobsource_id", orNone (Row.get r "jobsource_id"))]

/-- One output job record (the loop body of concat_jobs.py, lines 126-187):
base fields, then the optional fields, then the employer and job-source
resolutions, in the dict insertion order of the source. -/
def jobEntry (employer_lookup jobsource_lookup : List (Val × Row))
    (include_embeddings include_descriptions : Bool) (r : Row) : Row :=
  jobEntryOpt include_embeddings include_descriptions r
    ++ employerPart employer_lookup r ++ jobsourcePart jobsource_lookup r

/-- The assembled unified document (concat_jobs.py, lines 190-204).  The
`generated_at` wall-clock timestamp is the one nondeterministic field of the
metadata block and is left out of the embedding; the remaining metadata
fields appear as the scalar fields of this structure. -/
structure Unified where
  total_jobs : Nat
  active_jobs : Nat
  archived_jobs : Nat
  total_employers : Nat
  total_jobsources : Nat
  include_embeddings : Bool
  include_descriptions : Bool
  employers : List Row
  jobsources : List Row
  jobs : List Row
deriving Repr, DecidableEq

/-- `build_unified_structure` (concat_jobs.py, lines 82-206). -/
def build_unified_structure (jobs employers jobsources : DataFrame)
    (include_embeddings include_descriptions : Bool) : Unified :=
  let employer_lookup := buildLookup employers.rows "id" employerProj
  let jobsource_lookup := buildLookup jobsources.rows "jobsource_id" jobsourceProj
  let jobs_list :=
    jobs.rows.map (jobEntry employer_lookup jobsource_lookup include_embeddings include_descriptions)
  { total_jobs := jobs_list.length
    active_jobs := (jobs_list.filter (fun j => Row.get j "source_table" == Val.str "active")).length
    archived_jobs := (jobs_list.filter (fun j => Row.get j "source_table" == Val.str "archived")).length
    total_employers := employer_lookup.length
    total_jobsources := jobsource_lookup.length
    include_embeddings := include_embeddings
    include_descriptions := include_descriptions
    employers := employer_lookup.map (fun p => p.2)
    jobsources := jobsource_lookup.map (fun p => p.2)
    jobs := jobs_list }

/-- `unified_data.get(key, default)` over the embedded document. -/
def docGet (doc : Row) (k : String) (dflt : Val) : Val :=
  (getKey? doc k).getD dflt

/-- Removal of the `CategorizedData` field from one job record
(concat_jobs_freshdataset.py, line 50).  Job entries are mappings in every
document the assembler produces; a non-mapping entry would raise in Python
and lies outside the modelled domain. -/
def cleanJob (j : Val) : Val :=
  match j with
  | Val.obj fields => Val.obj (fields.filter (fun p => p.1 ≠ "CategorizedData"))
  | v => v

/-- The projection step of concat_jobs_freshdataset.py (`main`, lines 47-58):
keeps the employer and job-source collections (substituting an empty
collection when absent), strips `CategorizedData` from every job record, and
drops every other top-level key — in particular the whole `metadata` block. -/
def freshDataset (doc : Row) : Row :=
  let js := match docGet doc "jobs" (Val.arr []) with
    | Val.arr xs => xs
    | _ => []
  [("employers", docGet doc "employers" (Val.arr [])),
   ("jobsources", docGet doc "jobsources" (Val.arr [])),
   ("jobs", Val.arr (js.map cleanJob))]

theorem getKey?_append {κ α : Type} [BEq κ] (a b : List (κ × α)) (k : κ) :
    getKey? (a ++ b) k = (getKey? a k).or (getKey? b k) := by
  simp only [getKey?, List.find?_append]
  cases a.find? (fun p => p.1 == k) <;> simp

theorem find?_map_set_self {κ α : Type} [BEq κ] [LawfulBEq κ]
    (l : List (κ × α)) (k : κ) (v : α) (h : l.any (fun p => p.1 == k) = true) :
    (l.map (fun p => if p.1 == k then (k, v) else p)).find? (fun p => p.1 == k)
      = some (k, v) := by
  induction l with
  | nil => simp at h
  | cons p t ih =>
    by_cases hp : (p.1 == k) = true
    · simp [hp]
    · have ht : t.any (fun p => p.1 == k) = true := by simpa [hp] using h
      simp [hp, ih ht]

theorem find?_map_set_ne {κ α : Type} [BEq κ] [LawfulBEq κ]
    (l : List (κ × α)) (k k' : κ) (v : α) (h : ¬ k' = k) :
    (l.map (fun p => if p.1 == k then (k, v) else p)).find? (fun p => p.1 == k')
      = l.find? (fun p => p.1 == k') := by
  induction l with
  | nil => simp
  | cons p t ih =>
    by_cases hp : (p.1 == k) = true
    · have hpk : p.1 = k := eq_of_beq hp
      have h1 : (k == k') = false := by
        simp only [beq_eq_false_iff_ne, ne_eq]
        exact fun e => h e.symm
      have h2 : (p.1 == k') = false := by
        simp only [hpk, beq_eq_false_iff_ne, ne_eq]
        exact fun e => h e.symm
      simp [hp, h1, h2, ih]
    · by_cases hq : (p.1 == k') = true
      · simp [hp, hq]
      · simp [hp, hq, ih]

theorem getKey?_setKey_self {κ α : Type} [BEq κ] [LawfulBEq κ]
    (l : List (κ × α)) (k : κ) (v : α) :
    getKey? (setKey l k v) k = some v := by
  unfold setKey
  by_cases h : l.any (fun p => p.1 == k) = true
  · simp [h, getKey?, find?_map_set_self l k v h]
  · have h0 : l.any (fun p => p.1 == k) = false := by
      simp only [Bool.not_eq_true] at h
      exact h
    have hn : l.find? (fun p => p.1 == k) = none := by
      rw [List.find?_eq_none]
      exact List.any_eq_false.mp h0
    simp [h0, getKey?, List.find?_append, hn]

theorem getKey?_setKey_ne {κ α : Type} [BEq κ] [LawfulBEq κ]
    (l : List (κ × α)) (k k' : κ) (v : α) (h : ¬ k' = k) :
    getKey? (setKey l k v) k' = getKey? l k' := by
  unfold setKey
  by_cases hc : l.any (fun p => p.1 == k) = true
  · simp [hc, getKey?, find?_map_set_ne l k k' v h]
  · have h0 : l.any (fun p => p.1 == k) = false := by
      simp only [Bool.not_eq_true] at hc
      exact hc
    have hk : (k == k') = false := by
      simp only [beq_eq_false_iff_ne, ne_eq]
      exact fun e => h e.symm
    simp only [h0, Bool.false_eq_true, if_false, getKey?, List.find?_append]
    cases l.find? (fun p => p.1 == k') <;> simp [hk]

theorem map_fst_setKey_mem {κ α : Type} [BEq κ] [LawfulBEq κ]
    (l : List (κ × α)) (k : κ) (v : α) (h : l.any (fun p => p.1 == k) = true) :
    (setKey l k v).map Prod.fst = l.map Prod.fst := by
  unfold setKey
  simp only [h, if_true, List.map_map]
  apply List.map_congr_left
  intro p _
  by_cases hq : (p.1 == k) = true
  · simp [hq, (eq_of_beq hq).symm]
  · simp [hq]

theorem map_fst_setKey_not_mem {κ α : Type} [BEq κ]
    (l : List (κ × α)) (k : κ) (v : α) (h : l.any (fun p => p.1 == k) = false) :
    (setKey l k v).map Prod.fst = l.map Prod.fst ++ [k] := by
  unfold setKey
  simp [h]

theorem nodup_fst_setKey {κ α : Type} [BEq κ] [LawfulBEq κ]
    (l : List (κ × α)) (k : κ) (v : α) (h : (l.map Prod.fst).Nodup) :
    ((setKey l k v).map Prod.fst).Nodup := by
  by_cases hc : l.any (fun p => p.1 == k) = true
  · rw [map_fst_setKey_mem l k v hc]; exact h
  · have h0 : l.any (fun p => p.1 == k) = false := by
      simp only [Bool.not_eq_true] at hc
      exact hc
    rw [map_fst_setKey_not_mem l k v h0]
    have hk : k ∉ l.map Prod.fst := by
      intro hm
      rcases List.mem_map.mp hm with ⟨p, hp, he⟩
      have hb : (p.1 == k) = true := by simp [he]
      exact absurd (List.any_eq_true.mpr ⟨p, hp, hb⟩) hc
    simp [List.nodup_append, h, hk]

theorem toFinset_fst_setKey {κ α : Type} [BEq κ] [LawfulBEq κ] [DecidableEq κ]
    (l : List (κ × α)) (k : κ) (v : α) :
    ((setKey l k v).map Prod.fst).toFinset = insert k (l.map Prod.fst).toFinset := by
  by_cases hc : l.any (fun p => p.1 == k) = true
  · rw [map_fst_setKey_mem l k v hc]
    have hk : k ∈ (l.map Prod.fst).toFinset := by
      rcases List.any_eq_true.mp hc with ⟨p, hp, hb⟩
      rw [List.mem_toFinset]
      exact List.mem_map.mpr ⟨p, hp, eq_of_beq hb⟩
    exact (Finset.insert_eq_self.mpr hk).symm
  · have h0 : l.any (fun p => p.1 == k) = false := by
      simp only [Bool.not_eq_true] at hc
      exact hc
    rw [map_fst_setKey_not_mem l k v h0]
    rw [List.toFinset_append, Finset.union_comm]
    simp [Finset.insert_eq]

theorem foldLookup_getKey (c : String) (proj : Row → Row) :
    ∀ (rows : List Row) (d : List (Val × Row)) (k : Val),
    getKey? (rows.foldl (fun d r => dictSet d (Row.get r c) (proj r)) d) k
      = (((rows.filter (fun r => Row.get r c == k)).getLast?).map proj).or (getKey? d k)
  | [], d, k => by simp
  | r :: t, d, k => by
    rw [List.foldl_cons, foldLookup_getKey c proj t _ k]
    by_cases hr : (Row.get r c == k) = true
    · have hfc : List.filter (fun r => Row.get r c == k) (r :: t)
          = r :: List.filter (fun r => Row.get r c == k) t := List.filter_cons_of_pos hr
      rw [hfc]
      cases hlast : (t.filter (fun r => Row.get r c == k)).getLast? with
      | none =>
        have ht : t.filter (fun r => Row.get r c == k) = [] := by
          simpa [List.getLast?_eq_none_iff] using hlast
        have hk : Row.get r c = k := eq_of_beq hr
        simp [ht, dictSet, hk, getKey?_setKey_self]
      | some x =>
        cases htf : t.filter (fun r => Row.get r c == k) with
        | nil => rw [htf] at hlast; simp at hlast
        | cons y ys =>
          rw [htf] at hlast
          simp [List.getLast?_cons_cons, hlast]
    · have hfc : List.filter (fun r => Row.get r c == k) (r :: t)
          = List.filter (fun r => Row.get r c == k) t := List.filter_cons_of_neg hr
      rw [hfc]
      have hne : getKey? (dictSet d (Row.get r c) (proj r)) k = getKey? d k := by
        apply getKey?_setKey_ne
        intro e
        exact hr (by simp [e])
      rw [hne]

theorem foldLookup_nodup (c : String) (proj : Row → Row) :
    ∀ (rows : List Row) (d : List (Val × Row)), (d.map Prod.fst).Nodup →
    (((rows.foldl (fun d r => dictSet d (Row.get r c) (proj r)) d)).map Prod.fst).Nodup
  | [], _, h => h
  | _ :: t, _, h =>
    foldLookup_nodup c proj t _ (nodup_fst_setKey _ _ _ h)

theorem foldLookup_toFinset (c : String) (proj : Row → Row) :
    ∀ (rows : List Row) (d : List (Val × Row)),
    (((rows.foldl (fun d r => dictSet d (Row.get r c) (proj r)) d)).map Prod.fst).toFinset
      = (d.map Prod.fst).toFinset ∪ (rows.map (fun r => Row.get r c)).toFinset
  | [], _ => by simp
  | r :: t, d => by
    rw [List.foldl_cons, foldLookup_toFinset c proj t _]
    show ((dictSet d (Row.get r c) (proj r)).map Prod.fst).toFinset ∪ _ = _
    rw [dictSet, toFinset_fst_setKey]
    simp [Finset.insert_union, Finset.union_insert]

theorem buildLookup_getKey (rows : List Row) (c : String) (proj : Row → Row) (k : Val) :
    getKey? (buildLookup rows c proj) k
      = ((rows.filter (fun r => Row.get r c == k)).getLast?).map proj := by
  rw [buildLookup, foldLookup_getKey]
  simp [getKey?]

theorem buildLookup_nodup (rows : List Row) (c : String) (proj : Row → Row) :
    ((buildLookup rows c proj).map Prod.fst).Nodup := by
  rw [buildLookup]
  exact foldLookup_nodup c proj rows [] (by simp)

theorem buildLookup_length (rows : List Row) (c : String) (proj : Row → Row) :
    (buildLookup rows c proj).length = ((rows.map (fun r => Row.get r c)).dedup).length := by
  have hnd := buildLookup_nodup rows c proj
  have hfin : ((buildLookup rows c proj).map Prod.fst).toFinset
      = ((rows.map (fun r => Row.get r c))).toFinset := by
    have h := foldLookup_toFinset c proj rows []
    rw [buildLookup]
    simpa using h
  calc (buildLookup rows c proj).length
      = ((buildLookup rows c proj).map Prod.fst).length := by simp
    _ = ((buildLookup rows c proj).map Prod.fst).dedup.length := by rw [hnd.dedup]
    _ = ((buildLookup rows c proj).map Prod.fst).toFinset.card := (List.card_toFinset _).symm
    _ = ((rows.map (fun r => Row.get r c)).toFinset).card := by rw [hfin]
    _ = ((rows.map (fun r => Row.get r c)).dedup).length := List.card_toFinset _

theorem normalize_rows_eq (a b : DataFrame) :
    (normalize_job_schemas a b).rows
      = a.rows.map (fun r =>
          tagSource "active" (if "original_id" ∈ a.cols then r else addOriginalId r))
        ++ b.rows.map (tagSource "archived") := by
  by_cases h : "original_id" ∈ a.cols <;> simp [normalize_job_schemas, h]

theorem normalize_rows_length (a b : DataFrame) :
    (normalize_job_schemas a b).rows.length = a.rows.length + b.rows.length := by
  by_cases h : "original_id" ∈ a.cols <;> simp [normalize_job_schemas, h]

/-- C1: the normalized jobs relation is exactly the active rows in source
order, each stamped with provenance (and given an `original_id` absence
marker when the active frame lacked that column), followed by the archived
rows in source order, each stamped with provenance; hence its row count is
the sum of the two input row counts — no row is dropped or duplicated. -/
theorem C1_normalize_exact_concat (a b : DataFrame) :
    (normalize_job_schemas a b).rows
      = a.rows.map (fun r =>
          tagSource "active" (if "original_id" ∈ a.cols then r else addOriginalId r))
        ++ b.rows.map (tagSource "archived")
    ∧ (normalize_job_schemas a b).rows.length = a.rows.length + b.rows.length :=
  ⟨normalize_rows_eq a b, normalize_rows_length a b⟩

/-- C3: the embedded-JSON column parser maps the absence marker and the
empty string to the absence marker, passes an already-native nested
structure (dict) through unchanged, and maps any string `json.loads`
rejects to the absence marker; it is a total function of its input, so no
malformed payload raises past the parser's boundary or aborts the run. -/
theorem C3_parse_json_column_policy :
    parse_json_column Val.null = Val.null
    ∧ parse_json_column (Val.str "") = Val.null
    ∧ (∀ fields, parse_json_column (Val.obj fields) = Val.obj fields)
    ∧ (∀ s : String, jsonLoads s = none → parse_json_column (Val.str s) = Val.null) := by
  refine ⟨rfl, by decide, fun fields => by simp [parse_json_column], fun s h => ?_⟩
  by_cases hs : s = ""
  · simp [parse_json_column, hs]
  · simp [parse_json_column, hs, h]

/-- Witness for C3 at the spec's own malformed payload, the literal string
`\x7binvalid`. -/
theorem C3_parse_json_column_policy_witness :
    jsonLoads "\x7binvalid" = none
    ∧ parse_json_column (Val.str "\x7binvalid") = Val.null :=
  ⟨by decide, C3_parse_json_column_policy.2.2.2 "\x7binvalid" (by decide)⟩

/-- C4, evaluation at the failing input: the embedded-metadata payload
`"hello"` is a valid JSON string literal, so `json.loads` returns a raw
string; the parser forwards it (its `dict | None` annotation
notwithstanding) and the assembler carries it verbatim into the output
record's `CategorizedData` field — a raw string in the output, which the
claimed invariant rules out. -/
theorem C4_raw_string_reaches_output :
    parse_json_column (Val.str "\"hello\"") = Val.str "hello"
    ∧ (build_unified_structure
        (parse_categorized_data
          ⟨["id", "CategorizedData"],
           [[("id", Val.int 1), ("CategorizedData", Val.str "\"hello\"")]]⟩)
        ⟨[], []⟩ ⟨[], []⟩ false true).jobs.map (fun e => Row.get e "CategorizedData")
      = [Val.str "hello"] := by
  constructor
  · decide
  · decide

/-- C5 counterexample: with one job whose source key resolves against a
job-source row carrying a description, the lookup collection keeps the
description but the ref embedded into the job record holds only the
identifier and the label — it does not contain every field of the lookup
entry, so the claim as stated fails. -/
theorem C5_source_ref_counterexample :
    (build_unified_structure
        ⟨[], [[("id", Val.int 1), ("jobsource_id", Val.int 3)]]⟩ ⟨[], []⟩
        ⟨[], [[("jobsource_id", Val.int 3), ("jobsource", Val.str "portal"),
               ("description", Val.str "about")]]⟩ false true).jobsources
      = [[("jobsource_id", Val.int 3), ("jobsource", Val.str "portal"),
          ("description", Val.str "about")]]
    ∧ (build_unified_structure
        ⟨[], [[("id", Val.int 1), ("jobsource_id", Val.int 3)]]⟩ ⟨[], []⟩
        ⟨[], [[("jobsource_id", Val.int 3), ("jobsource", Val.str "portal"),
               ("description", Val.str "about")]]⟩ false true).jobs.map
        (fun e => getKey? e "jobsource")
      = [some (Val.obj [("jobsource_id", Val.int 3), ("jobsource", Val.str "portal")])]
    ∧ getKey? ([("jobsource_id", Val.int 3), ("jobsource", Val.str "portal")] : Row)
        "description" = none := by
  refine ⟨by decide, by decide, by decide⟩

/-- C6 counterexample: a document lacking all three expected top-level
collections is not rejected — the projection still produces a reduced
document, with empty collections, rather than failing; no
`ProjectionSourceInvalid` behaviour exists in the code. -/
theorem C6_no_failure_counterexample :
    freshDataset []
      = [("employers", Val.arr []), ("jobsources", Val.arr []),
         ("jobs", Val.arr [])] := by
  decide

theorem getKey?_filter_self {α : Type} (f : List (String × α)) (K : String) :
    getKey? (f.filter (fun p => p.1 ≠ K)) K = none := by
  have hn : (f.filter (fun p => p.1 ≠ K)).find? (fun p => p.1 == K) = none := by
    rw [List.find?_eq_none]
    intro x hx
    have hne := (List.mem_filter.mp hx).2
    simp at hne ⊢
    exact hne
  simp [getKey?, hn]

theorem getKey?_filter_ne {α : Type} (f : List (String × α)) (K k : String) (h : ¬ k = K) :
    getKey? (f.filter (fun p => p.1 ≠ K)) k = getKey? f k := by
  induction f with
  | nil => simp
  | cons p t ih =>
    by_cases hp : p.1 = K
    · have hpk : (p.1 == k) = false := by
        simp only [hp, beq_eq_false_iff_ne, ne_eq]
        exact fun e => h e.symm
      have h1 : List.filter (fun p => decide (p.1 ≠ K)) (p :: t)
          = List.filter (fun p => decide (p.1 ≠ K)) t := by
        simp [List.filter_cons, hp]
      rw [h1, ih]
      simp [getKey?, List.find?_cons, hpk]
    · have h1 : List.filter (fun p => decide (p.1 ≠ K)) (p :: t)
          = p :: List.filter (fun p => decide (p.1 ≠ K)) t := by
        simp [List.filter_cons, hp]
      rw [h1]
      cases hq : (p.1 == k) with
      | true => simp [getKey?, List.find?_cons, hq]
      | false =>
        simp only [getKey?, List.find?_cons, hq]
        simpa [getKey?] using ih

/-- C6 amended: a document missing an expected top-level collection is not
rejected; the projection substitutes the empty collection (the `dict.get`
default) for it and still produces the reduced document, whose top-level
keys are always exactly `employers`, `jobsources`, `jobs` — the code has no
failure path resembling `ProjectionSourceInvalid`. -/
theorem C6_missing_collections_defaulted (doc : Row) :
    (freshDataset doc).map Prod.fst = ["employers", "jobsources", "jobs"]
    ∧ (getKey? doc "employers" = none →
        Row.get (freshDataset doc) "employers" = Val.arr [])
    ∧ (getKey? doc "jobsources" = none →
        Row.get (freshDataset doc) "jobsources" = Val.arr [])
    ∧ (getKey? doc "jobs" = none →
        Row.get (freshDataset doc) "jobs" = Val.arr []) := by
  refine ⟨by simp [freshDataset], fun h => ?_, fun h => ?_, fun h => ?_⟩
  · have h' : doc.find? (fun p => p.1 == "employers") = none := by
      simpa [getKey?] using h
    simp [freshDataset, Row.get, getKey?, docGet, h']
  · have h' : doc.find? (fun p => p.1 == "jobsources") = none := by
      simpa [getKey?] using h
    simp [freshDataset, Row.get, getKey?, docGet, h']
  · have h' : doc.find? (fun p => p.1 == "jobs") = none := by
      simpa [getKey?] using h
    simp [freshDataset, Row.get, getKey?, docGet, h']

/-- Witness for C6 at a document holding only a metadata block. -/
theorem C6_missing_collections_defaulted_witness :
    (freshDataset [("metadata", Val.int 7)]).map Prod.fst
        = ["employers", "jobsources", "jobs"]
    ∧ Row.get (freshDataset [("metadata", Val.int 7)]) "employers" = Val.arr []
    ∧ Row.get (freshDataset [("metadata", Val.int 7)]) "jobsources" = Val.arr []
    ∧ Row.get (freshDataset [("metadata", Val.int 7)]) "jobs" = Val.arr [] :=
  ⟨(C6_missing_collections_defaulted _).1,
   (C6_missing_collections_defaulted _).2.1 (by decide),
   (C6_missing_collections_defaulted _).2.2.1 (by decide),
   (C6_missing_collections_defaulted _).2.2.2 (by decide)⟩

/-- C7: on a unified document the projection keeps the employer and
job-source collections unchanged, drops the top-level metadata block, and
removes from every job record exactly the `CategorizedData` field: the
filtered record has no `CategorizedData` key and agrees with the original
on every other key.  The embedding is a pure function of the input
document, which is therefore not mutated. -/
theorem C7_projection_lossless (md emps srcs : Val) (jobs : List Row) :
    freshDataset [("metadata", md), ("employers", emps), ("jobsources", srcs),
        ("jobs", Val.arr (jobs.map Val.obj))]
      = [("employers", emps), ("jobsources", srcs),
         ("jobs", Val.arr (jobs.map (fun f =>
            Val.obj (f.filter (fun p => p.1 ≠ "CategorizedData")))))]
    ∧ getKey? (freshDataset [("metadata", md), ("employers", emps),
        ("jobsources", srcs), ("jobs", Val.arr (jobs.map Val.obj))]) "metadata" = none
    ∧ ∀ f ∈ jobs,
        getKey? (f.filter (fun p => p.1 ≠ "CategorizedData")) "CategorizedData" = none
        ∧ ∀ k, ¬ k = "CategorizedData" →
            getKey? (f.filter (fun p => p.1 ≠ "CategorizedData")) k = getKey? f k := by
  refine ⟨?_, ?_, fun f _ => ⟨getKey?_filter_self f _, fun k hk => getKey?_filter_ne f _ k hk⟩⟩
  · simp [freshDataset, docGet, getKey?, cleanJob]
  · simp [freshDataset, getKey?]

/-- Witness for C7 at a one-record document carrying a metadata block and a
`CategorizedData` payload. -/
theorem C7_projection_lossless_witness :
    freshDataset [("metadata", Val.int 7), ("employers", Val.arr [Val.int 9]),
        ("jobsources", Val.arr []),
        ("jobs", Val.arr [Val.obj [("id", Val.int 1),
          ("CategorizedData", Val.obj [("a", Val.int 2)]), ("x", Val.str "y")]])]
      = [("employers", Val.arr [Val.int 9]), ("jobsources", Val.arr []),
         ("jobs", Val.arr [Val.obj [("id", Val.int 1), ("x", Val.str "y")]])]
    ∧ getKey? ([("id", Val.int 1), ("x", Val.str "y")] : Row) "CategorizedData" = none
    ∧ getKey? ([("id", Val.int 1), ("x", Val.str "y")] : Row) "x"
        = getKey? ([("id", Val.int 1),
            ("CategorizedData", Val.obj [("a", Val.int 2)]), ("x", Val.str "y")] : Row) "x" := by
  have h := C7_projection_lossless (Val.int 7) (Val.arr [Val.int 9]) (Val.arr [])
    [[("id", Val.int 1), ("CategorizedData", Val.obj [("a", Val.int 2)]), ("x", Val.str "y")]]
  refine ⟨?_, ?_, ?_⟩
  · have h1 := h.1
    simpa using h1
  · have h2 := (h.2.2 [("id", Val.int 1), ("CategorizedData", Val.obj [("a", Val.int 2)]),
      ("x", Val.str "y")] (by simp)).1
    simpa using h2
  · have h3 := (h.2.2 [("id", Val.int 1), ("CategorizedData", Val.obj [("a", Val.int 2)]),
      ("x", Val.str "y")] (by simp)).2 "x" (by decide)
    simpa using h3

theorem getKey?_eq_none_of_not_mem {α : Type} (l : List (String × α)) (k : String)
    (h : ¬ k ∈ l.map Prod.fst) : getKey? l k = none := by
  have hn : l.find? (fun p => p.1 == k) = none := by
    rw [List.find?_eq_none]
    intro x hx hbx
    exact h (List.mem_map.mpr ⟨x, hx, eq_of_beq hbx⟩)
  simp [getKey?, hn]

theorem map_fst_jobEntryBase (r : Row) :
    (jobEntryBase r).map Prod.fst
      = ["id", "job_title", "url", "department", "level", "location", "schedule",
         "main", "sync", "ignore", "removed", "manual", "Archived", "ideal",
         "created_at", "updated_at", "source_table", "CategorizedData", "clicks"] := by
  simp [jobEntryBase]

theorem map_fst_jobEntryOpt (ie id_ : Bool) (r : Row) :
    (jobEntryOpt ie id_ r).map Prod.fst
      = ((jobEntryBase r).map Prod.fst
          ++ (if id_ then ["description"] else [])
          ++ (if ie then ["job_embedding"] else []))
        ++ (if notna (Row.get r "original_id") then ["original_id"] else []) := by
  cases ie <;> cases id_ <;>
    by_cases ho : notna (Row.get r "original_id") = true <;>
      simp [jobEntryOpt, ho]

theorem getKey?_jobEntryOpt_fk_none (ie id_ : Bool) (r : Row) (k : String)
    (hk : k = "employer" ∨ k = "employer_id" ∨ k = "jobsource" ∨ k = "jobsource_id") :
    getKey? (jobEntryOpt ie id_ r) k = none := by
  apply getKey?_eq_none_of_not_mem
  rw [map_fst_jobEntryOpt, map_fst_jobEntryBase]
  rcases hk with rfl | rfl | rfl | rfl <;>
    cases ie <;> cases id_ <;>
      by_cases ho : notna (Row.get r "original_id") = true <;> simp [ho]

theorem employerPart_resolved (elk : List (Val × Row)) (r : Row) (emp : Row)
    (h : (if notna (Row.get r "employer_id") then
        dictFind elk (Row.get r "employer_id") else none) = some emp) :
    employerPart elk r = [("employer", employerRef emp)] := by
  simp [employerPart, h]

theorem employerPart_unresolved (elk : List (Val × Row)) (r : Row)
    (h : (if notna (Row.get r "employer_id") then
        dictFind elk (Row.get r "employer_id") else none) = none) :
    employerPart elk r
      = [("employer", Val.null), ("employer_id", orNone (Row.get r "employer_id"))] := by
  simp [employerPart, h]

theorem jobsourcePart_resolved (slk : List (Val × Row)) (r : Row) (src : Row)
    (h : (if notna (Row.get r "jobsource_id") then
        dictFind slk (Row.get r "jobsource_id") else none) = some src) :
    jobsourcePart slk r = [("jobsource", jobsourceRef src)] := by
  simp [jobsourcePart, h]

theorem jobsourcePart_unresolved (slk : List (Val × Row)) (r : Row)
    (h : (if notna (Row.get r "jobsource_id") then
        dictFind slk (Row.get r "jobsource_id") else none) = none) :
    jobsourcePart slk r
      = [("jobsource", Val.null), ("jobsource_id", orNone (Row.get r "jobsource_id"))] := by
  simp [jobsourcePart, h]

theorem build_jobs_eq (jobs emps srcs : DataFrame) (ie id_ : Bool) :
    (build_unified_structure jobs emps srcs ie id_).jobs
      = jobs.rows.map (jobEntry (buildLookup emps.rows "id" employerProj)
          (buildLookup srcs.rows "jobsource_id" jobsourceProj) ie id_) := rfl

theorem resolvedIf_iff (d : List (Val × Row)) (v : Val) :
    (∃ x, (if notna v then dictFind d v else none) = some x)
      ↔ notna v = true ∧ dictFind d v ≠ none := by
  by_cases hv : notna v = true
  · simp only [hv, if_true]
    cases h : dictFind d v <;> simp [h]
  · have hv0 : notna v = false := by
      simp only [Bool.not_eq_true] at hv
      exact hv
    simp [hv0]

/-- C2: in every assembled job record the embedded employer ref is non-null
exactly when the record's raw employer key is non-absent and is a key of the
employer index; when it resolves, the projected ref is embedded and the raw
key field is dropped; when it does not, the ref is null and the raw key
(possibly the absence marker) is retained under its own field.  The same
resolution holds for the source ref against the job-source index.  The first
conjunct ties the assembled document's records to `jobEntry`. -/
theorem C2_fk_resolution (jobs emps srcs : DataFrame) (ie id_ : Bool) :
    (build_unified_structure jobs emps srcs ie id_).jobs
      = jobs.rows.map (jobEntry (buildLookup emps.rows "id" employerProj)
          (buildLookup srcs.rows "jobsource_id" jobsourceProj) ie id_)
    ∧ ∀ elk slk r,
        (Row.get (jobEntry elk slk ie id_ r) "employer" ≠ Val.null
          ↔ notna (Row.get r "employer_id") = true
            ∧ dictFind elk (Row.get r "employer_id") ≠ none)
        ∧ (∀ emp, notna (Row.get r "employer_id") = true →
            dictFind elk (Row.get r "employer_id") = some emp →
            getKey? (jobEntry elk slk ie id_ r) "employer" = some (employerRef emp)
            ∧ getKey? (jobEntry elk slk ie id_ r) "employer_id" = none)
        ∧ (¬ (notna (Row.get r "employer_id") = true
              ∧ dictFind elk (Row.get r "employer_id") ≠ none) →
            getKey? (jobEntry elk slk ie id_ r) "employer" = some Val.null
            ∧ getKey? (jobEntry elk slk ie id_ r) "employer_id"
              = some (orNone (Row.get r "employer_id")))
        ∧ (Row.get (jobEntry elk slk ie id_ r) "jobsource" ≠ Val.null
          ↔ notna (Row.get r "jobsource_id") = true
            ∧ dictFind slk (Row.get r "jobsource_id") ≠ none)
        ∧ (∀ src, notna (Row.get r "jobsource_id") = true →
            dictFind slk (Row.get r "jobsource_id") = some src →
            getKey? (jobEntry elk slk ie id_ r) "jobsource" = some (jobsourceRef src)
            ∧ getKey? (jobEntry elk slk ie id_ r) "jobsource_id" = none)
        ∧ (¬ (notna (Row.get r "jobsource_id") = true
              ∧ dictFind slk (Row.get r "jobsource_id") ≠ none) →
            getKey? (jobEntry elk slk ie id_ r) "jobsource" = some Val.null
            ∧ getKey? (jobEntry elk slk ie id_ r) "jobsource_id"
              = some (orNone (Row.get r "jobsource_id"))) := by
  refine ⟨build_jobs_eq jobs emps srcs ie id_, fun elk slk r => ?_⟩
  have hoE := getKey?_jobEntryOpt_fk_none ie id_ r "employer" (Or.inl rfl)
  have hoEid := getKey?_jobEntryOpt_fk_none ie id_ r "employer_id" (Or.inr (Or.inl rfl))
  have hoS := getKey?_jobEntryOpt_fk_none ie id_ r "jobsource" (Or.inr (Or.inr (Or.inl rfl)))
  have hoSid := getKey?_jobEntryOpt_fk_none ie id_ r "jobsource_id" (Or.inr (Or.inr (Or.inr rfl)))
  cases hE : (if notna (Row.get r "employer_id") then
      dictFind elk (Row.get r "employer_id") else none) with
  | some emp =>
    have hcondE : notna (Row.get r "employer_id") = true
        ∧ dictFind elk (Row.get r "employer_id") = some emp := by
      by_cases hv : notna (Row.get r "employer_id") = true
      · rw [if_pos hv] at hE; exact ⟨hv, hE⟩
      · rw [if_neg hv] at hE; cases hE
    have hrwE := employerPart_resolved elk r emp hE
    cases hS : (if notna (Row.get r "jobsource_id") then
        dictFind slk (Row.get r "jobsource_id") else none) with
    | some src =>
      have hcondS : notna (Row.get r "jobsource_id") = true
          ∧ dictFind slk (Row.get r "jobsource_id") = some src := by
        by_cases hv : notna (Row.get r "jobsource_id") = true
        · rw [if_pos hv] at hS; exact ⟨hv, hS⟩
        · rw [if_neg hv] at hS; cases hS
      have hrwS := jobsourcePart_resolved slk r src hS
      have hgE : getKey? (jobEntry elk slk ie id_ r) "employer" = some (employerRef emp) := by
        rw [jobEntry, hrwE, hrwS, getKey?_append, getKey?_append, hoE]
        simp [getKey?]
      have hgEid : getKey? (jobEntry elk slk ie id_ r) "employer_id" = none := by
        rw [jobEntry, hrwE, hrwS, getKey?_append, getKey?_append, hoEid]
        simp [getKey?]
      have hgS : getKey? (jobEntry elk slk ie id_ r) "jobsource" = some (jobsourceRef src) := by
        rw [jobEntry, hrwE, hrwS, getKey?_append, getKey?_append, hoS]
        simp [getKey?]
      have hgSid : getKey? (jobEntry elk slk ie id_ r) "jobsource_id" = none := by
        rw [jobEntry, hrwE, hrwS, getKey?_append, getKey?_append, hoSid]
        simp [getKey?]
      refine ⟨?_, ?_, ?_, ?_, ?_, ?_⟩
      · constructor
        · intro _
          exact ⟨hcondE.1, by simp [hcondE.2]⟩
        · intro _
          simp [Row.get, hgE, employerRef]
      · intro e1 _ h2
        rw [hcondE.2] at h2
        cases h2
        exact ⟨hgE, hgEid⟩
      · intro hni
        exact absurd ⟨hcondE.1, by simp [hcondE.2]⟩ hni
      · constructor
        · intro _
          exact ⟨hcondS.1, by simp [hcondS.2]⟩
        · intro _
          simp [Row.get, hgS, jobsourceRef]
      · intro s1 _ h2
        rw [hcondS.2] at h2
        cases h2
        exact ⟨hgS, hgSid⟩
      · intro hni
        exact absurd ⟨hcondS.1, by simp [hcondS.2]⟩ hni
    | none =>
      have hcondS : ¬ (notna (Row.get r "jobsource_id") = true
          ∧ dictFind slk (Row.get r "jobsource_id") ≠ none) := by
        rintro ⟨hv, hd⟩
        rw [if_pos hv] at hS
        exact hd hS
      have hrwS := jobsourcePart_unresolved slk r hS
      have hgE : getKey? (jobEntry elk slk ie id_ r) "employer" = some (employerRef emp) := by
        rw [jobEntry, hrwE, hrwS, getKey?_append, getKey?_append, hoE]
        simp [getKey?]
      have hgEid : getKey? (jobEntry elk slk ie id_ r) "employer_id" = none := by
        rw [jobEntry, hrwE, hrwS, getKey?_append, getKey?_append, hoEid]
        simp [getKey?]
      have hgS : getKey? (jobEntry elk slk ie id_ r) "jobsource" = some Val.null := by
        rw [jobEntry, hrwE, hrwS, getKey?_append, getKey?_append, hoS]
        simp [getKey?]
      have hgSid : getKey? (jobEntry elk slk ie id_ r) "jobsource_id"
          = some (orNone (Row.get r "jobsource_id")) := by
        rw [jobEntry, hrwE, hrwS, getKey?_append, getKey?_append, hoSid]
        simp [getKey?]
      refine ⟨?_, ?_, ?_, ?_, ?_, ?_⟩
      · constructor
        · intro _
          exact ⟨hcondE.1, by simp [hcondE.2]⟩
        · intro _
          simp [Row.get, hgE, employerRef]
      · intro e1 _ h2
        rw [hcondE.2] at h2
        cases h2
        exact ⟨hgE, hgEid⟩
      · intro hni
        exact absurd ⟨hcondE.1, by simp [hcondE.2]⟩ hni
      · constructor
        · intro hget
          exact absurd (by simp [Row.get, hgS]) hget
        · intro hc
          exact absurd hc hcondS
      · intro s1 h1 h2
        exact absurd ⟨h1, by simp [h2]⟩ hcondS
      · intro _
        exact ⟨hgS, hgSid⟩
  | none =>
    have hcondE : ¬ (notna (Row.get r "employer_id") = true
        ∧ dictFind elk (Row.get r "employer_id") ≠ none) := by
      rintro ⟨hv, hd⟩
      rw [if_pos hv] at hE
      exact hd hE
    have hrwE := employerPart_unresolved elk r hE
    cases hS : (if notna (Row.get r "jobsource_id") then
        dictFind slk (Row.get r "jobsource_id") else none) with
    | some src =>
      have hcondS : notna (Row.get r "jobsource_id") = true
          ∧ dictFind slk (Row.get r "jobsource_id") = some src := by
        by_cases hv : notna (Row.get r "jobsource_id") = true
        · rw [if_pos hv] at hS; exact ⟨hv, hS⟩
        · rw [if_neg hv] at hS; cases hS
      have hrwS := jobsourcePart_resolved slk r src hS
      have hgE : getKey? (jobEntry elk slk ie id_ r) "employer" = some Val.null := by
        rw [jobEntry, hrwE, hrwS, getKey?_append, getKey?_append, hoE]
        simp [getKey?]
      have hgEid : getKey? (jobEntry elk slk ie id_ r) "employer_id"
          = some (orNone (Row.get r "employer_id")) := by
        rw [jobEntry, hrwE, hrwS, getKey?_append, getKey?_append, hoEid]
        simp [getKey?]
      have hgS : getKey? (jobEntry elk slk ie id_ r) "jobsource" = some (jobsourceRef src) := by
        rw [jobEntry, hrwE, hrwS, getKey?_append, getKey?_append, hoS]
        simp [getKey?]
      have hgSid : getKey? (jobEntry elk slk ie id_ r) "jobsource_id" = none := by
        rw [jobEntry, hrwE, hrwS, getKey?_append, getKey?_append, hoSid]
        simp [getKey?]
      refine ⟨?_, ?_, ?_, ?_, ?_, ?_⟩
      · constructor
        · intro hget
          exact absurd (by simp [Row.get, hgE]) hget
        · intro hc
          exact absurd hc hcondE
      · intro e1 h1 h2
        exact absurd ⟨h1, by simp [h2]⟩ hcondE
      · intro _
        exact ⟨hgE, hgEid⟩
      · constructor
        · intro _
          exact ⟨hcondS.1, by simp [hcondS.2]⟩
        · intro _
          simp [Row.get, hgS, jobsourceRef]
      · intro s1 _ h2
        rw [hcondS.2] at h2
        cases h2
        exact ⟨hgS, hgSid⟩
      · intro hni
        exact absurd ⟨hcondS.1, by simp [hcondS.2]⟩ hni
    | none =>
      have hcondS : ¬ (notna (Row.get r "jobsource_id") = true
          ∧ dictFind slk (Row.get r "jobsource_id") ≠ none) := by
        rintro ⟨hv, hd⟩
        rw [if_pos hv] at hS
        exact hd hS
      have hrwS := jobsourcePart_unresolved slk r hS
      have hgE : getKey? (jobEntry elk slk ie id_ r) "employer" = some Val.null := by
        rw [jobEntry, hrwE, hrwS, getKey?_append, getKey?_append, hoE]
        simp [getKey?]
      have hgEid : getKey? (jobEntry elk slk ie id_ r) "employer_id"
          = some (orNone (Row.get r "employer_id")) := by
        rw [jobEntry, hrwE, hrwS, getKey?_append, getKey?_append, hoEid]
        simp [getKey?]
      have hgS : getKey? (jobEntry elk slk ie id_ r) "jobsource" = some Val.null := by
        rw [jobEntry, hrwE, hrwS, getKey?_append, getKey?_append, hoS]
        simp [getKey?]
      have hgSid : getKey? (jobEntry elk slk ie id_ r) "jobsource_id"
          = some (orNone (Row.get r "jobsource_id")) := by
        rw [jobEntry, hrwE, hrwS, getKey?_append, getKey?_append, hoSid]
        simp [getKey?]
      refine ⟨?_, ?_, ?_, ?_, ?_, ?_⟩
      · constructor
        · intro hget
          exact absurd (by simp [Row.get, hgE]) hget
        · intro hc
          exact absurd hc hcondE
      · intro e1 h1 h2
        exact absurd ⟨h1, by simp [h2]⟩ hcondE
      · intro _
        exact ⟨hgE, hgEid⟩
      · constructor
        · intro hget
          exact absurd (by simp [Row.get, hgS]) hget
        · intro hc
          exact absurd hc hcondS
      · intro s1 h1 h2
        exact absurd ⟨h1, by simp [h2]⟩ hcondS
      · intro _
        exact ⟨hgS, hgSid⟩

/-- Witness for C2, at the spec's own concrete scenario: one job whose
employer key resolves and whose source key is absent. -/
theorem C2_fk_resolution_witness :
    getKey? (jobEntry
        (buildLookup [[("id", Val.int 10), ("name", Val.str "Acme")]] "id" employerProj)
        [] false true [("id", Val.int 1), ("employer_id", Val.int 10)]) "employer"
      = some (employerRef (employerProj [("id", Val.int 10), ("name", Val.str "Acme")]))
    ∧ getKey? (jobEntry
        (buildLookup [[("id", Val.int 10), ("name", Val.str "Acme")]] "id" employerProj)
        [] false true [("id", Val.int 1), ("employer_id", Val.int 10)]) "employer_id" = none
    ∧ getKey? (jobEntry
        (buildLookup [[("id", Val.int 10), ("name", Val.str "Acme")]] "id" employerProj)
        [] false true [("id", Val.int 1), ("employer_id", Val.int 10)]) "jobsource"
      = some Val.null
    ∧ getKey? (jobEntry
        (buildLookup [[("id", Val.int 10), ("name", Val.str "Acme")]] "id" employerProj)
        [] false true [("id", Val.int 1), ("employer_id", Val.int 10)]) "jobsource_id"
      = some (orNone (Row.get [("id", Val.int 1), ("employer_id", Val.int 10)] "jobsource_id")) := by
  have h := (C2_fk_resolution ⟨[], []⟩ ⟨[], []⟩ ⟨[], []⟩ false true).2
    (buildLookup [[("id", Val.int 10), ("name", Val.str "Acme")]] "id" employerProj)
    [] [("id", Val.int 1), ("employer_id", Val.int 10)]
  have h1 := h.2.1 (employerProj [("id", Val.int 10), ("name", Val.str "Acme")])
    (by decide) (by decide)
  have h2 := h.2.2.2.2.2 (by decide)
  exact ⟨h1.1, h1.2, h2.1, h2.2⟩

/-- C5 amended: the two lookup indices hold full projected entries — the
employer entry with display fields and both counters, the job-source entry
with identifier, label and description — but the refs embedded into job
records are narrower: the employer ref carries exactly the display fields
`id`, `name`, `alt_name`, `logo_url` (not the counters), and the source ref
carries exactly `jobsource_id` and `jobsource` — the description of the
lookup entry is not embedded. -/
theorem C5_ref_projection_amended (elk slk : List (Val × Row)) (ie id_ : Bool) (r : Row) :
    (∀ e, (employerProj e).map Prod.fst
        = ["id", "name", "alt_name", "logo_url", "fh", "jobscount", "jobscount_online"])
    ∧ (∀ s, (jobsourceProj s).map Prod.fst = ["jobsource_id", "jobsource", "description"])
    ∧ (∀ e fs, employerRef e = Val.obj fs → fs.map Prod.fst = ["id", "name", "alt_name", "logo_url"])
    ∧ (∀ s fs, jobsourceRef s = Val.obj fs → fs.map Prod.fst = ["jobsource_id", "jobsource"])
    ∧ (∀ emp, notna (Row.get r "employer_id") = true →
        dictFind elk (Row.get r "employer_id") = some emp →
        getKey? (jobEntry elk slk ie id_ r) "employer" = some (employerRef emp))
    ∧ (∀ src, notna (Row.get r "jobsource_id") = true →
        dictFind slk (Row.get r "jobsource_id") = some src →
        getKey? (jobEntry elk slk ie id_ r) "jobsource" = some (jobsourceRef src)) := by
  refine ⟨fun e => by simp [employerProj], fun s => by simp [jobsourceProj],
    fun e fs he => ?_, fun s fs hs => ?_, fun emp h1 h2 => ?_, fun src h1 h2 => ?_⟩
  · rw [employerRef] at he
    cases he
    simp
  · rw [jobsourceRef] at hs
    cases hs
    simp
  · have hE : (if notna (Row.get r "employer_id") then
        dictFind elk (Row.get r "employer_id") else none) = some emp := by
      rw [if_pos h1]; exact h2
    rw [jobEntry, getKey?_append, getKey?_append,
      getKey?_jobEntryOpt_fk_none ie id_ r "employer" (Or.inl rfl),
      employerPart_resolved elk r emp hE]
    simp [getKey?]
  · have hS : (if notna (Row.get r "jobsource_id") then
        dictFind slk (Row.get r "jobsource_id") else none) = some src := by
      rw [if_pos h1]; exact h2
    rw [jobEntry, getKey?_append, getKey?_append,
      getKey?_jobEntryOpt_fk_none ie id_ r "jobsource" (Or.inr (Or.inr (Or.inl rfl))),
      jobsourcePart_resolved slk r src hS]
    cases hE : (if notna (Row.get r "employer_id") then
        dictFind elk (Row.get r "employer_id") else none) with
    | some emp =>
      rw [employerPart_resolved elk r emp hE]
      simp [getKey?]
    | none =>
      rw [employerPart_unresolved elk r hE]
      simp [getKey?]

/-- Witness for C5 amended, with a resolvable source key whose lookup entry
carries a description. -/
theorem C5_ref_projection_amended_witness :
    (jobsourceProj [("jobsource_id", Val.int 3), ("jobsource", Val.str "portal"),
        ("description", Val.str "about")]).map Prod.fst
      = ["jobsource_id", "jobsource", "description"]
    ∧ getKey? (jobEntry []
        (buildLookup [[("jobsource_id", Val.int 3), ("jobsource", Val.str "portal"),
          ("description", Val.str "about")]] "jobsource_id" jobsourceProj)
        false true [("id", Val.int 1), ("jobsource_id", Val.int 3)]) "jobsource"
      = some (jobsourceRef (jobsourceProj [("jobsource_id", Val.int 3),
          ("jobsource", Val.str "portal"), ("description", Val.str "about")]))
    ∧ (∀ fs, jobsourceRef (jobsourceProj [("jobsource_id", Val.int 3),
          ("jobsource", Val.str "portal"), ("description", Val.str "about")]) = Val.obj fs →
        fs.map Prod.fst = ["jobsource_id", "jobsource"]) := by
  have h := C5_ref_projection_amended []
    (buildLookup [[("jobsource_id", Val.int 3), ("jobsource", Val.str "portal"),
      ("description", Val.str "about")]] "jobsource_id" jobsourceProj)
    false true [("id", Val.int 1), ("jobsource_id", Val.int 3)]
  refine ⟨h.2.1 _, ?_, ?_⟩
  · exact h.2.2.2.2.2 (jobsourceProj [("jobsource_id", Val.int 3),
      ("jobsource", Val.str "portal"), ("description", Val.str "about")]) (by decide) (by decide)
  · exact h.2.2.2.1 _

/-- C10: duplicate identifiers in a reference relation collapse to a single
lookup entry — the assembled reference collections are the dict values, the
dict keys are free of duplicates, the entry under a key is the projection of
the last source row bearing that identifier, and the metadata counts
`total_employers` and `total_jobsources` equal the number of distinct
identifiers, not the number of input rows. -/
theorem C10_reference_dedup (jobs emps srcs : DataFrame) (ie id_ : Bool) :
    (build_unified_structure jobs emps srcs ie id_).employers
        = (buildLookup emps.rows "id" employerProj).map (fun p => p.2)
    ∧ ((buildLookup emps.rows "id" employerProj).map Prod.fst).Nodup
    ∧ (build_unified_structure jobs emps srcs ie id_).total_employers
        = ((emps.rows.map (fun r => Row.get r "id")).dedup).length
    ∧ (∀ k, dictFind (buildLookup emps.rows "id" employerProj) k
        = ((emps.rows.filter (fun r => Row.get r "id" == k)).getLast?).map employerProj)
    ∧ (build_unified_structure jobs emps srcs ie id_).jobsources
        = (buildLookup srcs.rows "jobsource_id" jobsourceProj).map (fun p => p.2)
    ∧ ((buildLookup srcs.rows "jobsource_id" jobsourceProj).map Prod.fst).Nodup
    ∧ (build_unified_structure jobs emps srcs ie id_).total_jobsources
        = ((srcs.rows.map (fun r => Row.get r "jobsource_id")).dedup).length
    ∧ (∀ k, dictFind (buildLookup srcs.rows "jobsource_id" jobsourceProj) k
        = ((srcs.rows.filter (fun r => Row.get r "jobsource_id" == k)).getLast?).map
            jobsourceProj) := by
  refine ⟨rfl, buildLookup_nodup _ _ _, ?_, fun k => ?_, rfl, buildLookup_nodup _ _ _,
    ?_, fun k => ?_⟩
  · exact buildLookup_length emps.rows "id" employerProj
  · exact buildLookup_getKey emps.rows "id" employerProj k
  · exact buildLookup_length srcs.rows "jobsource_id" jobsourceProj
  · exact buildLookup_getKey srcs.rows "jobsource_id" jobsourceProj k

theorem jobEntryBase_no_option_keys (r : Row) :
    ∀ a (b : Val), (a, b) ∈ jobEntryBase r → ¬ a = "description" ∧ ¬ a = "job_embedding" := by
  intro a b hab
  simp [jobEntryBase] at hab
  rcases hab with h|h|h|h|h|h|h|h|h|h|h|h|h|h|h|h|h|h|h <;> simp [h.1]

theorem filter_jobEntryOpt (ie id_ : Bool) (r : Row) :
    (jobEntryOpt ie id_ r).filter (fun p => ¬ (p.1 = "description" ∨ p.1 = "job_embedding"))
      = jobEntryBase r
        ++ (if notna (Row.get r "original_id") then
              [("original_id", Val.int (pyInt (Row.get r "original_id")))] else []) := by
  cases ie <;> cases id_ <;>
    by_cases ho : notna (Row.get r "original_id") = true <;>
      simp [jobEntryOpt, ho, List.filter_append] <;>
      exact fun a b hab => jobEntryBase_no_option_keys r a b hab

theorem filter_employerPart (elk : List (Val × Row)) (r : Row) :
    (employerPart elk r).filter (fun p => ¬ (p.1 = "description" ∨ p.1 = "job_embedding"))
      = employerPart elk r := by
  cases hE : (if notna (Row.get r "employer_id") then
      dictFind elk (Row.get r "employer_id") else none) with
  | some emp => rw [employerPart_resolved elk r emp hE]; simp
  | none => rw [employerPart_unresolved elk r hE]; simp

theorem filter_jobsourcePart (slk : List (Val × Row)) (r : Row) :
    (jobsourcePart slk r).filter (fun p => ¬ (p.1 = "description" ∨ p.1 = "job_embedding"))
      = jobsourcePart slk r := by
  cases hS : (if notna (Row.get r "jobsource_id") then
      dictFind slk (Row.get r "jobsource_id") else none) with
  | some src => rw [jobsourcePart_resolved slk r src hS]; simp
  | none => rw [jobsourcePart_unresolved slk r hS]; simp

/-- C9: runs differing only in the `include_embeddings` and
`include_descriptions` options produce job collections of the same length —
one record per input row in input order in both runs — and corresponding
records differ only in the presence of the `description` and `job_embedding`
fields: stripped of those two fields, the records are identical.  The
options never filter which records appear. -/
theorem C9_options_affect_fields_only (jobs emps srcs : DataFrame)
    (ie1 id1 ie2 id2 : Bool) :
    (build_unified_structure jobs emps srcs ie1 id1).jobs.length
      = (build_unified_structure jobs emps srcs ie2 id2).jobs.length
    ∧ (build_unified_structure jobs emps srcs ie1 id1).jobs
        = jobs.rows.map (jobEntry (buildLookup emps.rows "id" employerProj)
            (buildLookup srcs.rows "jobsource_id" jobsourceProj) ie1 id1)
    ∧ (build_unified_structure jobs emps srcs ie2 id2).jobs
        = jobs.rows.map (jobEntry (buildLookup emps.rows "id" employerProj)
            (buildLookup srcs.rows "jobsource_id" jobsourceProj) ie2 id2)
    ∧ ∀ elk slk r,
        (jobEntry elk slk ie1 id1 r).filter
            (fun p => ¬ (p.1 = "description" ∨ p.1 = "job_embedding"))
          = (jobEntry elk slk ie2 id2 r).filter
            (fun p => ¬ (p.1 = "description" ∨ p.1 = "job_embedding")) := by
  refine ⟨?_, build_jobs_eq _ _ _ _ _, build_jobs_eq _ _ _ _ _, fun elk slk r => ?_⟩
  · rw [build_jobs_eq, build_jobs_eq]
    simp
  · rw [jobEntry, jobEntry, List.filter_append, List.filter_append, List.filter_append,
      List.filter_append, filter_jobEntryOpt, filter_jobEntryOpt, filter_employerPart,
      filter_jobsourcePart]

theorem get_set_self (r : Row) (k : String) (v : Val) :
    Row.get (Row.set r k v) k = v := by
  rw [Row.get, Row.set, getKey?_setKey_self]
  rfl

theorem get_set_ne (r : Row) (k k2 : String) (v : Val) (h : ¬ k2 = k) :
    Row.get (Row.set r k v) k2 = Row.get r k2 := by
  rw [Row.get, Row.set, getKey?_setKey_ne _ _ _ _ h, Row.get]

theorem get_addOriginalId (r : Row) (h : Row.get r "original_id" = Val.null) :
    Row.get (addOriginalId r) "original_id" = Val.null := by
  rw [addOriginalId, Row.get, getKey?_append]
  cases hg : getKey? r "original_id" with
  | none => simp [getKey?]
  | some v =>
    have hv : v = Val.null := by
      rw [Row.get, hg] at h
      simpa using h
    simp [hv]

theorem getKey?_jobEntry_source_table (elk slk : List (Val × Row)) (ie id_ : Bool)
    (rr : Row) :
    getKey? (jobEntry elk slk ie id_ rr) "source_table"
      = some (Row.get rr "source_table") := by
  have hbase : getKey? (jobEntryBase rr) "source_table" = some (Row.get rr "source_table") := by
    simp [jobEntryBase, getKey?]
  have hopt : getKey? (jobEntryOpt ie id_ rr) "source_table"
      = some (Row.get rr "source_table") := by
    cases ie <;> cases id_ <;>
      by_cases ho : notna (Row.get rr "original_id") = true <;>
        simp only [jobEntryOpt, ho, Bool.false_eq_true, if_true, if_false,
          getKey?_append, hbase, Option.or_some]
  rw [jobEntry, getKey?_append, getKey?_append, hopt]
  rfl

theorem getKey?_jobEntry_original_id_none (elk slk : List (Val × Row)) (ie id_ : Bool)
    (rr : Row) (h : Row.get rr "original_id" = Val.null) :
    getKey? (jobEntry elk slk ie id_ rr) "original_id" = none := by
  have hno : notna (Row.get rr "original_id") = false := by simp [h, notna]
  have hbase : getKey? (jobEntryBase rr) "original_id" = none := by
    apply getKey?_eq_none_of_not_mem
    rw [map_fst_jobEntryBase]
    decide
  have hopt : getKey? (jobEntryOpt ie id_ rr) "original_id" = none := by
    cases ie <;> cases id_ <;>
      simp only [jobEntryOpt, hno, Bool.false_eq_true, if_true, if_false,
        getKey?_append, hbase, Option.none_or] <;>
      simp [getKey?]
  have hemp : getKey? (employerPart elk rr) "original_id" = none := by
    cases hE : (if notna (Row.get rr "employer_id") then
        dictFind elk (Row.get rr "employer_id") else none) with
    | some emp => rw [employerPart_resolved elk rr emp hE]; simp [getKey?]
    | none => rw [employerPart_unresolved elk rr hE]; simp [getKey?]
  have hsrc : getKey? (jobsourcePart slk rr) "original_id" = none := by
    cases hS : (if notna (Row.get rr "jobsource_id") then
        dictFind slk (Row.get rr "jobsource_id") else none) with
    | some src => rw [jobsourcePart_resolved slk rr src hS]; simp [getKey?]
    | none => rw [jobsourcePart_unresolved slk rr hS]; simp [getKey?]
  rw [jobEntry, getKey?_append, getKey?_append, hopt, hemp, hsrc]
  rfl

/-- C8: in every record of the assembled document built from the normalized
and parsed relations, the provenance tag is exactly `"active"` or
`"archived"`, and under the expected input schema — active rows carrying no
prior-system identifier — the `original_id` field is absent from every
record whose provenance is `"active"`; archived-origin records may carry
it. -/
theorem C8_provenance_invariant (a b e s : DataFrame) (ie id_ : Bool)
    (ha : ∀ r ∈ a.rows, Row.get r "original_id" = Val.null) :
    ∀ entry ∈ (build_unified_structure
        (parse_categorized_data (normalize_job_schemas a b)) e s ie id_).jobs,
      (Row.get entry "source_table" = Val.str "active"
        ∨ Row.get entry "source_table" = Val.str "archived")
      ∧ (Row.get entry "source_table" = Val.str "active" →
          getKey? entry "original_id" = none) := by
  intro entry hentry
  rw [build_jobs_eq] at hentry
  obtain ⟨rr, hrr, rfl⟩ := List.mem_map.mp hentry
  have hparse : (parse_categorized_data (normalize_job_schemas a b)).rows
      = (normalize_job_schemas a b).rows.map
          (fun r => Row.set r "CategorizedData"
            (parse_json_column (Row.get r "CategorizedData"))) := rfl
  rw [hparse, normalize_rows_eq] at hrr
  obtain ⟨r1, hr1, rfl⟩ := List.mem_map.mp hrr
  have hstE : ∀ r2 : Row,
      Row.get (jobEntry (buildLookup e.rows "id" employerProj)
        (buildLookup s.rows "jobsource_id" jobsourceProj) ie id_ r2) "source_table"
      = Row.get r2 "source_table" := by
    intro r2
    rw [Row.get, getKey?_jobEntry_source_table]
    rfl
  have hpst : Row.get (Row.set r1 "CategorizedData"
      (parse_json_column (Row.get r1 "CategorizedData"))) "source_table"
      = Row.get r1 "source_table" := get_set_ne r1 _ _ _ (by decide)
  have hpoid : Row.get (Row.set r1 "CategorizedData"
      (parse_json_column (Row.get r1 "CategorizedData"))) "original_id"
      = Row.get r1 "original_id" := get_set_ne r1 _ _ _ (by decide)
  rcases List.mem_append.mp hr1 with hA | hB
  · obtain ⟨r0, hr0, rfl⟩ := List.mem_map.mp hA
    have hst1 : Row.get (tagSource "active"
        (if "original_id" ∈ a.cols then r0 else addOriginalId r0)) "source_table"
        = Val.str "active" := get_set_self _ _ _
    have hoid1 : Row.get (tagSource "active"
        (if "original_id" ∈ a.cols then r0 else addOriginalId r0)) "original_id"
        = Val.null := by
      rw [tagSource, get_set_ne _ _ _ _ (by decide)]
      by_cases hc : "original_id" ∈ a.cols
      · rw [if_pos hc]
        exact ha r0 hr0
      · rw [if_neg hc]
        exact get_addOriginalId r0 (ha r0 hr0)
    constructor
    · left
      rw [hstE, hpst, hst1]
    · intro _
      apply getKey?_jobEntry_original_id_none
      rw [hpoid, hoid1]
  · obtain ⟨r0, _, rfl⟩ := List.mem_map.mp hB
    have hst1 : Row.get (tagSource "archived" r0) "source_table"
        = Val.str "archived" := get_set_self _ _ _
    constructor
    · right
      rw [hstE, hpst, hst1]
    · intro hact
      rw [hstE, hpst, hst1] at hact
      exact absurd hact (by decide)

/-- Witness for C8: a one-active-row, one-archived-row run; the active-origin
output record carries provenance `"active"` and no `original_id` field. -/
theorem C8_provenance_invariant_witness :
    Row.get ([("id", Val.int 1), ("job_title", Val.null), ("url", Val.null),
       ("department", Val.null), ("level", Val.null), ("location", Val.null),
       ("schedule", Val.null), ("main", Val.bool false), ("sync", Val.bool false),
       ("ignore", Val.bool false), ("removed", Val.bool false),
       ("manual", Val.bool false), ("Archived", Val.bool false),
       ("ideal", Val.bool false), ("created_at", Val.null), ("updated_at", Val.null),
       ("source_table", Val.str "active"), ("CategorizedData", Val.null),
       ("clicks", Val.int 0), ("description", Val.null), ("employer", Val.null),
       ("employer_id", Val.null), ("jobsource", Val.null), ("jobsource_id", Val.null)] : Row) "source_table" = Val.str "active"
    ∧ getKey? ([("id", Val.int 1), ("job_title", Val.null), ("url", Val.null),
       ("department", Val.null), ("level", Val.null), ("location", Val.null),
       ("schedule", Val.null), ("main", Val.bool false), ("sync", Val.bool false),
       ("ignore", Val.bool false), ("removed", Val.bool false),
       ("manual", Val.bool false), ("Archived", Val.bool false),
       ("ideal", Val.bool false), ("created_at", Val.null), ("updated_at", Val.null),
       ("source_table", Val.str "active"), ("CategorizedData", Val.null),
       ("clicks", Val.int 0), ("description", Val.null), ("employer", Val.null),
       ("employer_id", Val.null), ("jobsource", Val.null), ("jobsource_id", Val.null)] : Row) "original_id" = none :=
  ⟨by decide,
   ((C8_provenance_invariant ⟨["id"], [[("id", Val.int 1)]]⟩
      ⟨["id", "original_id"], [[("id", Val.int 2), ("original_id", Val.int 99)]]⟩
      ⟨[], []⟩ ⟨[], []⟩ false true (by decide))
      ([("id", Val.int 1), ("job_title", Val.null), ("url", Val.null),
       ("department", Val.null), ("level", Val.null), ("location", Val.null),
       ("schedule", Val.null), ("main", Val.bool false), ("sync", Val.bool false),
       ("ignore", Val.bool false), ("removed", Val.bool false),
       ("manual", Val.bool false), ("Archived", Val.bool false),
       ("ideal", Val.bool false), ("created_at", Val.null), ("updated_at", Val.null),
       ("source_table", Val.str "active"), ("CategorizedData", Val.null),
       ("clicks", Val.int 0), ("description", Val.null), ("employer", Val.null),
       ("employer_id", Val.null), ("jobsource", Val.null), ("jobsource_id", Val.null)] : Row) (by decide)).2 (by decide)⟩

end ConcatJobs
